import Mathlib

/-!
Verification development for the dragon-curve explorer page of this
repository.  The JavaScript source is shallowly embedded: symbol strings
are lists of characters, JavaScript numbers are modelled as real numbers
(with explicit rounding/truncation where the code rounds or truncates),
and the 3x3 orientation matrices of the 3D projector are an explicit
nine-field structure mirroring the nested-array matrices of the source.
-/

namespace DragonCurve

/-- One rewrite pass of the L-system, from the inner loop of
`generateLSystem`: `F` expands to `F+G`, `G` expands to `F-G`, every
other character is copied unchanged. -/
def lsysStep (str : List Char) : List Char :=
  str.flatMap fun ch =>
    if ch = 'F' then ['F', '+', 'G']
    else if ch = 'G' then ['F', '-', 'G']
    else [ch]

/-- The L-system string after `n` rewrite passes starting from the axiom
`"F"`, as computed by `generateLSystem`.  The source memoizes results in
`lSystemCache`; the cache only ever stores values this function returns,
so it is semantically transparent and omitted from the model. -/
def generateLSystem : Nat → List Char
  | 0 => ['F']
  | n + 1 => lsysStep (generateLSystem n)

/-- Count of forward-draw symbols (`F` or `G`) in a symbol string. -/
def countDraws (s : List Char) : Nat :=
  s.countP fun ch => ch == 'F' || ch == 'G'

/-- The generator as called with a JavaScript number that may be
negative: the loop `for (let i = 0; i < n; i++)` performs `max n 0`
passes, so a negative `n` performs none.  The `Except` result records
that the source function can only return a string or throw; its body
contains no `throw`, so every call returns `Except.ok`. -/
def generateLSystemInt (n : Int) : Except String (List Char) :=
  Except.ok (generateLSystem n.toNat)

theorem countDraws_nil : countDraws [] = 0 := rfl

theorem countDraws_cons (ch : Char) (s : List Char) :
    countDraws (ch :: s) =
      (if ch = 'F' ∨ ch = 'G' then 1 else 0) + countDraws s := by
  by_cases h : ch = 'F' ∨ ch = 'G'
  · rcases h with h | h <;> simp [countDraws, List.countP_cons, h] <;> omega
  · push_neg at h
    simp [countDraws, List.countP_cons, h.1, h.2]

theorem countDraws_append (s t : List Char) :
    countDraws (s ++ t) = countDraws s + countDraws t := by
  simp [countDraws, List.countP_append]

theorem countDraws_lsysStep (s : List Char) :
    countDraws (lsysStep s) = 2 * countDraws s := by
  induction s with
  | nil => rfl
  | cons ch rest ih =>
    have hstep : lsysStep (ch :: rest) =
        (if ch = 'F' then ['F', '+', 'G']
         else if ch = 'G' then ['F', '-', 'G']
         else [ch]) ++ lsysStep rest := by
      simp [lsysStep]
    rw [hstep, countDraws_append, ih, countDraws_cons]
    by_cases hF : ch = 'F'
    · simp [hF, countDraws]; omega
    · by_cases hG : ch = 'G'
      · simp [hF, hG, countDraws]; omega
      · have : ¬ (ch = 'F' ∨ ch = 'G') := by tauto
        simp [hF, hG, this, countDraws]

theorem length_lsysStep (s : List Char) :
    (lsysStep s).length = s.length + 2 * countDraws s := by
  induction s with
  | nil => rfl
  | cons ch rest ih =>
    have hstep : lsysStep (ch :: rest) =
        (if ch = 'F' then ['F', '+', 'G']
         else if ch = 'G' then ['F', '-', 'G']
         else [ch]) ++ lsysStep rest := by
      simp [lsysStep]
    rw [hstep, List.length_append, ih, countDraws_cons]
    by_cases hF : ch = 'F'
    · simp [hF]; omega
    · by_cases hG : ch = 'G'
      · simp [hF, hG]; omega
      · have : ¬ (ch = 'F' ∨ ch = 'G') := by tauto
        simp [hF, hG, this]; omega

theorem countDraws_generateLSystem (n : Nat) :
    countDraws (generateLSystem n) = 2 ^ n := by
  induction n with
  | zero => rfl
  | succ n ih =>
    rw [generateLSystem, countDraws_lsysStep, ih, pow_succ]
    ring

/-- C1 counterexample: at iteration count 2 the generated string is
`F+G+F-G`, of length 7, not 3 squared = 9. -/
theorem generateLSystem_length_pow3_false :
    ¬ (generateLSystem 2).length = 3 ^ 2 := by decide

/-- C1 (amended): the length of the generated string is 2^(n+1) - 1 for
every iteration count n (each rewrite pass doubles the number of
forward-draw symbols and keeps the turn symbols), so length(1) = 3 and
length(2) = 7. -/
theorem generateLSystem_length_formula (n : Nat) :
    (generateLSystem n).length = 2 ^ (n + 1) - 1 := by
  induction n with
  | zero => rfl
  | succ n ih =>
    rw [generateLSystem, length_lsysStep, ih, countDraws_generateLSystem]
    have h1 : 2 ^ (n + 1) = 2 * 2 ^ n := by rw [pow_succ]; ring
    have h2 : 2 ^ (n + 2) = 2 * 2 ^ (n + 1) := by rw [pow_succ]; ring
    have h3 : 0 < 2 ^ n := Nat.pos_pow_of_pos n (by omega)
    omega

/-- C4 counterexample: called with the negative iteration count -1, the
generator returns the axiom string `F` normally; it raises no
invalid-argument error (the rewrite loop simply runs zero passes). -/
theorem generateLSystemInt_neg_one_ok :
    generateLSystemInt (-1) = Except.ok ['F'] := rfl

/-- C4 (amended): for every negative iteration count the generator
returns the axiom string `F` unchanged, with no error raised. -/
theorem generateLSystemInt_neg_returns_axiom (n : Int) (h : n < 0) :
    generateLSystemInt n = Except.ok ['F'] := by
  have ht : n.toNat = 0 := Int.toNat_of_nonpos (le_of_lt h)
  simp [generateLSystemInt, ht, generateLSystem]

/-- Witness for the amended C4 theorem at the concrete input -2. -/
theorem generateLSystemInt_neg_returns_axiom_witness :
    generateLSystemInt (-2) = Except.ok ['F'] :=
  generateLSystemInt_neg_returns_axiom (-2) (by decide)

/-- A 2D point, curve-local units. -/
abbrev Point2 := ℝ × ℝ

/-- A 3D point, curve-local units. -/
abbrev Point3 := ℝ × ℝ × ℝ

/-- Turtle walk of `get2DPoints`: the list of points pushed after the
initial origin, given the precomputed turn angle in radians and the
current position and heading. -/
noncomputable def go2D (angleRad : ℝ) : List Char → ℝ → ℝ → ℝ → List Point2
  | [], _, _, _ => []
  | ch :: rest, x, y, direction =>
    if ch = 'F' ∨ ch = 'G' then
      go2DStep angleRad rest x y direction
    else if ch = '+' then go2D angleRad rest x y (direction + angleRad)
    else if ch = '-' then go2D angleRad rest x y (direction - angleRad)
    else go2D angleRad rest x y direction
where
  /-- Forward step: advance one unit along the heading and record. -/
  go2DStep (angleRad : ℝ) (rest : List Char) (x y direction : ℝ) :
      List Point2 :=
    (x + Real.cos direction, y + Real.sin direction) ::
      go2D angleRad rest (x + Real.cos direction) (y + Real.sin direction)
        direction

/-- Embedding of `get2DPoints`: converts the angle from degrees to
radians, starts the turtle at the origin facing along positive x, and
records the origin followed by one point per forward-draw symbol. -/
noncomputable def get2DPoints (str : List Char) (angleDeg : ℝ) :
    List Point2 :=
  (0, 0) :: go2D (angleDeg * Real.pi / 180) str 0 0 0

/-- A 3x3 matrix, mirroring the nested-array matrices of `get3DPoints`. -/
structure Mat3 where
  m00 : ℝ
  m01 : ℝ
  m02 : ℝ
  m10 : ℝ
  m11 : ℝ
  m12 : ℝ
  m20 : ℝ
  m21 : ℝ
  m22 : ℝ

/-- Rotation about the z axis, from `getRotationZ`. -/
noncomputable def getRotationZ (a : ℝ) : Mat3 :=
  ⟨Real.cos a, -Real.sin a, 0,
   Real.sin a, Real.cos a, 0,
   0, 0, 1⟩

/-- Rotation about the x axis, from `getRotationX`. -/
noncomputable def getRotationX (a : ℝ) : Mat3 :=
  ⟨1, 0, 0,
   0, Real.cos a, -Real.sin a,
   0, Real.sin a, Real.cos a⟩

/-- Matrix product `A * B`, from `matMul`. -/
def matMul (A B : Mat3) : Mat3 :=
  ⟨A.m00 * B.m00 + A.m01 * B.m10 + A.m02 * B.m20,
   A.m00 * B.m01 + A.m01 * B.m11 + A.m02 * B.m21,
   A.m00 * B.m02 + A.m01 * B.m12 + A.m02 * B.m22,
   A.m10 * B.m00 + A.m11 * B.m10 + A.m12 * B.m20,
   A.m10 * B.m01 + A.m11 * B.m11 + A.m12 * B.m21,
   A.m10 * B.m02 + A.m11 * B.m12 + A.m12 * B.m22,
   A.m20 * B.m00 + A.m21 * B.m10 + A.m22 * B.m20,
   A.m20 * B.m01 + A.m21 * B.m11 + A.m22 * B.m21,
   A.m20 * B.m02 + A.m21 * B.m12 + A.m22 * B.m22⟩

/-- Matrix applied to a column vector, from `applyMat`. -/
def applyMat (m : Mat3) (v : Point3) : Point3 :=
  (m.m00 * v.1 + m.m01 * v.2.1 + m.m02 * v.2.2,
   m.m10 * v.1 + m.m11 * v.2.1 + m.m12 * v.2.2,
   m.m20 * v.1 + m.m21 * v.2.1 + m.m22 * v.2.2)

/-- The identity matrix, the initial `orientation` of `get3DPoints`. -/
def idMat : Mat3 := ⟨1, 0, 0, 0, 1, 0, 0, 0, 1⟩

/-- Turtle walk of `get3DPoints`: the list of points pushed after the
initial origin.  Forward-draw symbols translate by the orientation's
local x axis plus `extrude` along global z; turn symbols right-multiply
the orientation by the precomputed plus/minus rotation. -/
noncomputable def go3D (plusRot minusRot : Mat3) (extrude : ℝ) :
    List Char → Mat3 → ℝ → ℝ → ℝ → List Point3
  | [], _, _, _, _ => []
  | ch :: rest, orientation, x, y, z =>
    if ch = 'F' ∨ ch = 'G' then
      go3DStep plusRot minusRot extrude rest orientation x y z
    else if ch = '+' then
      go3D plusRot minusRot extrude rest (matMul orientation plusRot) x y z
    else if ch = '-' then
      go3D plusRot minusRot extrude rest (matMul orientation minusRot) x y z
    else go3D plusRot minusRot extrude rest orientation x y z
where
  /-- Forward step: move one unit along the local x direction, add the
  extrusion along global z, and record the new position. -/
  go3DStep (plusRot minusRot : Mat3) (extrude : ℝ) (rest : List Char)
      (orientation : Mat3) (x y z : ℝ) : List Point3 :=
    let dir := applyMat orientation (1, 0, 0)
    (x + dir.1, y + dir.2.1, z + dir.2.2 + extrude) ::
      go3D plusRot minusRot extrude rest orientation (x + dir.1)
        (y + dir.2.1) (z + dir.2.2 + extrude)

/-- Embedding of `get3DPoints`: converts angle and twist to radians,
precomputes `plusRot = Rz(angle) * Rx(twist)` and
`minusRot = Rz(-angle) * Rx(twist)`, and walks the string starting from
the identity orientation at the origin. -/
noncomputable def get3DPoints (str : List Char)
    (angleDeg twistDeg extrude : ℝ) : List Point3 :=
  let angleRad := angleDeg * Real.pi / 180
  let twistRad := twistDeg * Real.pi / 180
  let plusRot := matMul (getRotationZ angleRad) (getRotationX twistRad)
  let minusRot := matMul (getRotationZ (-angleRad)) (getRotationX twistRad)
  (0, 0, 0) :: go3D plusRot minusRot extrude str idMat 0 0 0

theorem go2D_length (angleRad : ℝ) (s : List Char) :
    ∀ x y d, (go2D angleRad s x y d).length = countDraws s := by
  induction s with
  | nil => intro x y d; simp [go2D, countDraws]
  | cons ch rest ih =>
    intro x y d
    rw [countDraws_cons]
    by_cases h : ch = 'F' ∨ ch = 'G'
    · simp [go2D, go2D.go2DStep, h, ih]; omega
    · push_neg at h
      by_cases hp : ch = '+'
      · simp [go2D, h.1, h.2, hp, ih]
      · by_cases hm : ch = '-'
        · simp [go2D, h.1, h.2, hp, hm, ih]
        · simp [go2D, h.1, h.2, hp, hm, ih]

theorem go3D_length (plusRot minusRot : Mat3) (extrude : ℝ)
    (s : List Char) : ∀ ori x y z,
    (go3D plusRot minusRot extrude s ori x y z).length = countDraws s := by
  induction s with
  | nil => intro ori x y z; simp [go3D, countDraws]
  | cons ch rest ih =>
    intro ori x y z
    rw [countDraws_cons]
    by_cases h : ch = 'F' ∨ ch = 'G'
    · simp [go3D, go3D.go3DStep, h, ih]; omega
    · push_neg at h
      by_cases hp : ch = '+'
      · simp [go3D, h.1, h.2, hp, ih]
      · by_cases hm : ch = '-'
        · simp [go3D, h.1, h.2, hp, hm, ih]
        · simp [go3D, h.1, h.2, hp, hm, ih]

/-- C2: for every symbol string, angle, twist and extrusion, the 2D and
the 3D projector each return a point list whose first point is the
origin and whose length is the number of forward-draw symbols (`F` or
`G`) in the string plus one. -/
theorem points_start_origin_length (str : List Char)
    (angleDeg twistDeg extrude : ℝ) :
    (get2DPoints str angleDeg).head? = some (0, 0) ∧
    (get2DPoints str angleDeg).length = countDraws str + 1 ∧
    (get3DPoints str angleDeg twistDeg extrude).head? = some (0, 0, 0) ∧
    (get3DPoints str angleDeg twistDeg extrude).length =
      countDraws str + 1 := by
  refine ⟨rfl, ?_, rfl, ?_⟩
  · simp [get2DPoints, go2D_length]
  · simp [get3DPoints, go3D_length]

theorem getRotationX_zero : getRotationX 0 = idMat := by
  simp [getRotationX, idMat, Real.cos_zero, Real.sin_zero]

theorem matMul_idMat (A : Mat3) : matMul A idMat = A := by
  cases A
  simp [matMul, idMat]

theorem idMat_eq_rotZ_zero : idMat = getRotationZ 0 := by
  simp [idMat, getRotationZ, Real.cos_zero, Real.sin_zero]

theorem rotZ_mul_rotZ (a b : ℝ) :
    matMul (getRotationZ a) (getRotationZ b) = getRotationZ (a + b) := by
  simp only [matMul, getRotationZ, Mat3.mk.injEq]
  refine ⟨?_, ?_, ?_, ?_, ?_, ?_, ?_, ?_, ?_⟩ <;>
    simp [Real.cos_add, Real.sin_add] <;> ring

theorem applyMat_rotZ_e1 (t : ℝ) :
    applyMat (getRotationZ t) (1, 0, 0) = (Real.cos t, Real.sin t, 0) := by
  simp [applyMat, getRotationZ]

/-- Dropping the third coordinate of a 3D point. -/
def dropZ (p : Point3) : Point2 := (p.1, p.2.1)

theorem go3D_twist_zero (a : ℝ) (s : List Char) : ∀ x y t,
    (go3D (getRotationZ a) (getRotationZ (-a)) 0 s (getRotationZ t) x y
        0).map dropZ = go2D a s x y t := by
  induction s with
  | nil => intro x y t; simp [go3D, go2D]
  | cons ch rest ih =>
    intro x y t
    by_cases h : ch = 'F' ∨ ch = 'G'
    · simp only [go3D, go2D, h, if_true]
      simp only [go3D.go3DStep, go2D.go2DStep, applyMat_rotZ_e1]
      simp only [add_zero, zero_add, List.map_cons]
      exact congrArg _ (ih _ _ _)
    · push_neg at h
      by_cases hp : ch = '+'
      · simp only [go3D, go2D, h.1, h.2, hp, if_false, if_true,
          rotZ_mul_rotZ]
        exact ih _ _ _
      · by_cases hm : ch = '-'
        · simp only [go3D, go2D, h.1, h.2, hp, hm, if_false, if_true,
            rotZ_mul_rotZ, sub_eq_add_neg]
          exact ih _ _ _
        · simp only [go3D, go2D, h.1, h.2, hp, hm, if_false]
          exact ih _ _ _

/-- C3: with twist 0 and extrusion 0, the 3D projector's output with the
third coordinate of every point dropped is exactly the 2D projector's
output for the same string and angle. -/
theorem get3DPoints_degenerates_to_2D (str : List Char) (angleDeg : ℝ) :
    (get3DPoints str angleDeg 0 0).map dropZ = get2DPoints str angleDeg := by
  have htwist : (0 : ℝ) * Real.pi / 180 = 0 := by ring
  simp only [get3DPoints, get2DPoints, htwist, getRotationX_zero,
    matMul_idMat, List.map_cons]
  rw [idMat_eq_rotZ_zero]
  exact congrArg _ (go3D_twist_zero _ _ _ _ _)

/-- The 3D viewer state: view centre, pitch and yaw, zoom factors, the
camera distance and the canvas client extents. -/
structure ViewState where
  centerX : ℝ
  centerY : ℝ
  centerZ : ℝ
  rotX : ℝ
  rotY : ℝ
  userZoom : ℝ
  baseZoom : ℝ
  cameraDist : ℝ
  canvasW : ℝ
  canvasH : ℝ

/-- The view rotation matrix built from pitch `rotX` and yaw `rotY`,
from `getViewRotation`. -/
noncomputable def getViewRotation (v : ViewState) : Mat3 :=
  let cx := Real.cos v.rotX
  let sx := Real.sin v.rotX
  let cy := Real.cos v.rotY
  let sy := Real.sin v.rotY
  ⟨cy, 0, sy,
   sx * sy, cx, -(sx * cy),
   -(cx * sy), sx, cx * cy⟩

/-- Result of projecting a 3D point: screen coordinates, the rotated
depth, and the validity flag. -/
structure Projected where
  x : ℝ
  y : ℝ
  z : ℝ
  valid : Prop

/-- Embedding of `project3D`: translate by the view centre, rotate by
the view rotation, then perspective-divide by
`cameraDist - rotated depth`; the point is valid only when that
denominator exceeds 0.001. -/
noncomputable def project3D (v : ViewState) (pt : Point3) : Projected :=
  let dx := pt.1 - v.centerX
  let dy := pt.2.1 - v.centerY
  let dz := pt.2.2 - v.centerZ
  let R := getViewRotation v
  let rx := R.m00 * dx + R.m01 * dy + R.m02 * dz
  let ry := R.m10 * dx + R.m11 * dy + R.m12 * dz
  let rz := R.m20 * dx + R.m21 * dy + R.m22 * dz
  let denom := v.cameraDist - rz
  let factor := (v.baseZoom * v.userZoom) / denom
  { x := v.canvasW / 2 + rx * factor,
    y := v.canvasH / 2 - ry * factor,
    z := rz,
    valid := denom > 0.001 }

open Classical in
/-- The segments actually stroked by the 3D branch of `draw`: for each
segment index `i` below the prefix limit, the segment from point `i` to
point `i + 1` is drawn unless either endpoint failed projection
validity, in which case the loop `continue`s past it. -/
noncomputable def drawnSegments3D (v : ViewState) (pts : List Point3)
    (maxSegment : Nat) : List (Point3 × Point3) :=
  (List.range maxSegment).filterMap fun i =>
    match pts[i]?, pts[i + 1]? with
    | some p1, some p2 =>
      if (project3D v p1).valid ∧ (project3D v p2).valid then
        some (p1, p2)
      else none
    | _, _ => none

/-- C5: a 3D point whose rotated depth is at least the camera distance
projects as invalid (the perspective denominator is at most 0.001), and
every segment the renderer draws has both endpoints valid, so such a
point is never an endpoint of a drawn segment. -/
theorem project3D_behind_camera_invalid_not_drawn (v : ViewState)
    (pts : List Point3) (maxSegment : Nat) (pt : Point3)
    (h : v.cameraDist ≤ (project3D v pt).z) :
    ¬ (project3D v pt).valid ∧
    ∀ seg ∈ drawnSegments3D v pts maxSegment,
      ((project3D v seg.1).valid ∧ (project3D v seg.2).valid) ∧
      seg.1 ≠ pt ∧ seg.2 ≠ pt := by
  have hinvalid : ¬ (project3D v pt).valid := by
    simp only [project3D] at h ⊢
    push_neg
    linarith
  refine ⟨hinvalid, ?_⟩
  intro seg hseg
  simp only [drawnSegments3D, List.mem_filterMap] at hseg
  obtain ⟨i, _, hf⟩ := hseg
  have hvalid : (project3D v seg.1).valid ∧ (project3D v seg.2).valid := by
    split at hf
    · split at hf
      · cases hf
        assumption
      · cases hf
    · cases hf
  refine ⟨hvalid, ?_, ?_⟩
  · intro heq
    exact hinvalid (heq ▸ hvalid.1)
  · intro heq
    exact hinvalid (heq ▸ hvalid.2)

/-- Witness for the C5 theorem: with the identity view (pitch and yaw
zero, centre at the origin) and camera distance 1, the point (0, 0, 2)
has rotated depth 2 and is invalid and never drawn. -/
theorem project3D_behind_camera_invalid_not_drawn_witness :
    ¬ (project3D ⟨0, 0, 0, 0, 0, 1, 1, 1, 100, 100⟩ (0, 0, 2)).valid ∧
    ∀ seg ∈ drawnSegments3D ⟨0, 0, 0, 0, 0, 1, 1, 1, 100, 100⟩
        [((0 : ℝ), (0 : ℝ), (2 : ℝ))] 1,
      ((project3D ⟨0, 0, 0, 0, 0, 1, 1, 1, 100, 100⟩ seg.1).valid ∧
        (project3D ⟨0, 0, 0, 0, 0, 1, 1, 1, 100, 100⟩ seg.2).valid) ∧
      seg.1 ≠ (0, 0, 2) ∧ seg.2 ≠ (0, 0, 2) :=
  project3D_behind_camera_invalid_not_drawn
    ⟨0, 0, 0, 0, 0, 1, 1, 1, 100, 100⟩ [((0 : ℝ), (0 : ℝ), (2 : ℝ))] 1
    (0, 0, 2)
    (by simp [project3D, getViewRotation, Real.cos_zero, Real.sin_zero])

/-- Truncation toward zero, as JavaScript division-based remainder uses. -/
noncomputable def jsTrunc (x : ℝ) : ℤ :=
  if 0 ≤ x then ⌊x⌋ else ⌈x⌉

/-- The JavaScript remainder operator `x % y`: the sign follows the
dividend. -/
noncomputable def jsMod (x y : ℝ) : ℝ := x - y * jsTrunc (x / y)

/-- The JavaScript `Math.round`: halves round up (toward positive
infinity), so it is floor of the argument plus one half. -/
noncomputable def jsRound (x : ℝ) : ℤ := ⌊x + 1 / 2⌋

/-- The inner helper `hue2rgb` of `hslToRgb`: wraps `t` into [0, 1] and
evaluates the piecewise-linear hue ramp. -/
noncomputable def hue2rgb (p q t0 : ℝ) : ℝ :=
  let t1 := if t0 < 0 then t0 + 1 else t0
  let t := if t1 > 1 then t1 - 1 else t1
  if t < 1 / 6 then p + (q - p) * 6 * t
  else if t < 1 / 2 then q
  else if t < 2 / 3 then p + (q - p) * (2 / 3 - t) * 6
  else p

/-- Embedding of `hslToRgb`: hue in [0, 360), saturation and lightness
in [0, 1]; returns the rounded RGB channels. -/
noncomputable def hslToRgb (h s l : ℝ) : ℤ × ℤ × ℤ :=
  let h1 := jsMod h 360 / 360
  if s = 0 then
    (jsRound (l * 255), jsRound (l * 255), jsRound (l * 255))
  else
    let q := if l < 1 / 2 then l * (1 + s) else l + s - l * s
    let p := 2 * l - q
    (jsRound (hue2rgb p q (h1 + 1 / 3) * 255),
     jsRound (hue2rgb p q h1 * 255),
     jsRound (hue2rgb p q (h1 - 1 / 3) * 255))

/-- The per-segment colour choice of `draw` (identical in its 2D and 3D
branches): rainbow first, else gradient, else the solid start colour.
`i` is the segment index and `N` the total segment count; colours are
RGB channel triples as returned by `hexToRgb`. -/
noncomputable def segColor (useRainbow useGradient : Bool)
    (startRGB endRGB : ℤ × ℤ × ℤ) (i N : Nat) : ℤ × ℤ × ℤ :=
  if useRainbow ∧ N > 0 then
    let t : ℝ := (i : ℝ) / (N : ℝ)
    hslToRgb (360 * t) 1 (1 / 2)
  else if useGradient ∧ N > 0 then
    let t : ℝ := (i : ℝ) / (N : ℝ)
    (jsRound ((startRGB.1 : ℝ) + ((endRGB.1 : ℝ) - (startRGB.1 : ℝ)) * t),
     jsRound ((startRGB.2.1 : ℝ) +
       ((endRGB.2.1 : ℝ) - (startRGB.2.1 : ℝ)) * t),
     jsRound ((startRGB.2.2 : ℝ) +
       ((endRGB.2.2 : ℝ) - (startRGB.2.2 : ℝ)) * t))
  else startRGB

/-- C6: when both the rainbow and the gradient policies are enabled, a
drawn segment (index below the segment count) gets the rainbow colour
hue = 360 * (i / N) at full saturation and half lightness, and the
result is the same as with the gradient policy disabled: the gradient
interpolation is never applied. -/
theorem rainbow_overrides_gradient (sc ec : ℤ × ℤ × ℤ) (i N : Nat)
    (h : i < N) :
    segColor true true sc ec i N =
      hslToRgb (360 * ((i : ℝ) / (N : ℝ))) 1 (1 / 2) ∧
    segColor true true sc ec i N = segColor true false sc ec i N := by
  have hN : 0 < N := lt_of_le_of_lt (Nat.zero_le i) h
  simp [segColor, hN]

/-- Witness for the C6 theorem at segment 0 of 1 with black and white
endpoint colours. -/
theorem rainbow_overrides_gradient_witness :
    segColor true true (0, 0, 0) (255, 255, 255) 0 1 =
      hslToRgb (360 * (((0 : Nat) : ℝ) / ((1 : Nat) : ℝ))) 1 (1 / 2) ∧
    segColor true true (0, 0, 0) (255, 255, 255) 0 1 =
      segColor true false (0, 0, 0) (255, 255, 255) 0 1 :=
  rainbow_overrides_gradient (0, 0, 0) (255, 255, 255) 0 1 (by decide)

theorem jsRound_intCast (s : ℤ) : jsRound (s : ℝ) = s := by
  rw [jsRound]
  have h2 : ⌊(1 / 2 : ℝ)⌋ = 0 := by
    rw [Int.floor_eq_zero_iff]
    constructor <;> norm_num
  rw [Int.floor_int_add, h2, add_zero]

theorem jsRound_interp_between (s e : ℤ) (t : ℝ) (h0 : 0 ≤ t)
    (h1 : t ≤ 1) :
    min s e ≤ jsRound ((s : ℝ) + ((e : ℝ) - (s : ℝ)) * t) ∧
    jsRound ((s : ℝ) + ((e : ℝ) - (s : ℝ)) * t) ≤ max s e := by
  set v : ℝ := (s : ℝ) + ((e : ℝ) - (s : ℝ)) * t with hv
  have hlo : ((min s e : ℤ) : ℝ) ≤ v := by
    rcases le_total s e with hse | hse
    · have hse' : (s : ℝ) ≤ (e : ℝ) := by exact_mod_cast hse
      rw [min_eq_left hse]
      nlinarith
    · have hse' : (e : ℝ) ≤ (s : ℝ) := by exact_mod_cast hse
      rw [min_eq_right hse]
      nlinarith
  have hhi : v ≤ ((max s e : ℤ) : ℝ) := by
    rcases le_total s e with hse | hse
    · have hse' : (s : ℝ) ≤ (e : ℝ) := by exact_mod_cast hse
      rw [max_eq_right hse]
      nlinarith
    · have hse' : (e : ℝ) ≤ (s : ℝ) := by exact_mod_cast hse
      rw [max_eq_left hse]
      nlinarith
  constructor
  · rw [jsRound, Int.le_floor]
    push_cast
    push_cast at hlo
    linarith
  · have hlt : jsRound v < max s e + 1 := by
      rw [jsRound, Int.floor_lt]
      push_cast
      push_cast at hhi
      linarith
    omega

/-- C7 counterexample: with start colour (0, 0, 0), end colour
(1, 1, 1) and 2 segments, the gradient colour of the last segment
(index 1) is exactly the end colour: `Math.round(0 + 1 * (1/2)) = 1` on
each channel, so the last segment's colour is not strictly between the
two and does equal the end colour. -/
theorem gradient_last_segment_equals_end :
    segColor false true (0, 0, 0) (1, 1, 1) 1 2 = (1, 1, 1) := by
  unfold segColor
  rw [if_neg (by simp), if_pos (show (true : Bool) = true ∧ (2 : Nat) > 0
    from ⟨rfl, by norm_num⟩)]
  refine Prod.ext ?_ (Prod.ext ?_ ?_) <;>
  · unfold jsRound
    norm_num

/-- C7 (amended): at segment index 0 the gradient policy produces
exactly the start colour; at the last index N - 1 (N > 1) each channel
of the produced colour lies between the corresponding start and end
channels inclusive — rounding can make it equal to the end colour. -/
theorem gradient_endpoint_colors (sc ec : ℤ × ℤ × ℤ) (N : Nat)
    (h : 1 < N) :
    segColor false true sc ec 0 N = sc ∧
    (min sc.1 ec.1 ≤ (segColor false true sc ec (N - 1) N).1 ∧
      (segColor false true sc ec (N - 1) N).1 ≤ max sc.1 ec.1) ∧
    (min sc.2.1 ec.2.1 ≤ (segColor false true sc ec (N - 1) N).2.1 ∧
      (segColor false true sc ec (N - 1) N).2.1 ≤ max sc.2.1 ec.2.1) ∧
    (min sc.2.2 ec.2.2 ≤ (segColor false true sc ec (N - 1) N).2.2 ∧
      (segColor false true sc ec (N - 1) N).2.2 ≤ max sc.2.2 ec.2.2) := by
  have hN : 0 < N := lt_trans one_pos h
  have ht0 : (0 : ℝ) ≤ ((N - 1 : Nat) : ℝ) / (N : ℝ) := by positivity
  have ht1 : ((N - 1 : Nat) : ℝ) / (N : ℝ) ≤ 1 := by
    rw [div_le_one (by exact_mod_cast hN)]
    exact_mod_cast Nat.sub_le N 1
  have hc1 : ¬((false : Bool) = true ∧ N > 0) := by simp
  have hc2 : ((true : Bool) = true ∧ N > 0) := ⟨rfl, hN⟩
  refine ⟨?_, ?_, ?_, ?_⟩
  · unfold segColor
    rw [if_neg hc1, if_pos hc2]
    simp only [Nat.cast_zero, zero_div, mul_zero, add_zero, jsRound_intCast]
  · unfold segColor
    rw [if_neg hc1, if_pos hc2]
    exact jsRound_interp_between sc.1 ec.1 _ ht0 ht1
  · unfold segColor
    rw [if_neg hc1, if_pos hc2]
    exact jsRound_interp_between sc.2.1 ec.2.1 _ ht0 ht1
  · unfold segColor
    rw [if_neg hc1, if_pos hc2]
    exact jsRound_interp_between sc.2.2 ec.2.2 _ ht0 ht1

/-- Witness for the amended C7 theorem with start (10, 20, 30), end
(0, 255, 30) and 3 segments. -/
theorem gradient_endpoint_colors_witness :
    segColor false true (10, 20, 30) (0, 255, 30) 0 3 = (10, 20, 30) ∧
    (min (10 : ℤ) 0 ≤ (segColor false true (10, 20, 30) (0, 255, 30) 2 3).1 ∧
      (segColor false true (10, 20, 30) (0, 255, 30) 2 3).1 ≤ max (10 : ℤ) 0) ∧
    (min (20 : ℤ) 255 ≤
        (segColor false true (10, 20, 30) (0, 255, 30) 2 3).2.1 ∧
      (segColor false true (10, 20, 30) (0, 255, 30) 2 3).2.1 ≤
        max (20 : ℤ) 255) ∧
    (min (30 : ℤ) 30 ≤
        (segColor false true (10, 20, 30) (0, 255, 30) 2 3).2.2 ∧
      (segColor false true (10, 20, 30) (0, 255, 30) 2 3).2.2 ≤
        max (30 : ℤ) 30) :=
  gradient_endpoint_colors (10, 20, 30) (0, 255, 30) 3 (by decide)

/-- The canvas wheel handler: in 3D mode, multiply the user zoom by
`exp(-deltaY * 0.001)` and clamp the result to [0.1, 10] via
`Math.max(0.1, Math.min(10, userZoom))`; outside 3D mode the handler
returns without touching the zoom. -/
noncomputable def wheelZoom (enable3d : Bool) (userZoom deltaY : ℝ) : ℝ :=
  if enable3d then
    max 0.1 (min 10 (userZoom * Real.exp (-deltaY * 0.001)))
  else userZoom

/-- C10: starting from any user zoom in [0.1, 10], the zoom after any
mouse-wheel event (any wheel delta, 3D mode on or off) is still in
[0.1, 10]: the clamp preserves the invariant on every step. -/
theorem wheelZoom_clamped (enable3d : Bool) (z d : ℝ) (hlo : 0.1 ≤ z)
    (hhi : z ≤ 10) :
    0.1 ≤ wheelZoom enable3d z d ∧ wheelZoom enable3d z d ≤ 10 := by
  unfold wheelZoom
  by_cases h3 : enable3d = true
  · rw [if_pos h3]
    constructor
    · exact le_max_left _ _
    · exact max_le (by norm_num) (min_le_left _ _)
  · rw [if_neg h3]
    exact ⟨hlo, hhi⟩

/-- Witness for the C10 theorem: zoom 1, wheel delta 5, 3D mode on. -/
theorem wheelZoom_clamped_witness :
    0.1 ≤ wheelZoom true 1 5 ∧ wheelZoom true 1 5 ≤ 10 :=
  wheelZoom_clamped true 1 5 (by norm_num) (by norm_num)

/-- The page state the animate-button click handler reads and writes:
the cached point sequences, the animation flags and counters, the
pending timer identifier, and the UI enablement driven alongside them. -/
structure AnimUIState where
  currentString : List Char
  currentPoints2D : List Point2
  currentPoints3D : List Point3
  isAnimating : Bool
  animationProgress : ℤ
  animationTimer : Option ℕ
  controlsDisabled : Bool
  animateBtnVisible : Bool
  cancelBtnVisible : Bool

/-- One synchronous run of `animateSegment`: stop if cancelled,
otherwise draw the current prefix (no state effect in this model),
increment the progress counter, and either schedule the next tick after
`1000 / animationSpeed` milliseconds or, past the last segment, finish:
clear the animating flag, reset the progress sentinel, restore the
buttons and re-enable the controls. -/
def animateSegmentStep (use3D : Bool) (animationSpeed : ℕ)
    (st : AnimUIState) : AnimUIState :=
  if st.isAnimating = false then st
  else
    let progress1 := st.animationProgress + 1
    let totalSegments : ℤ :=
      (if use3D then st.currentPoints3D.length
       else st.currentPoints2D.length) - 1
    if progress1 ≤ totalSegments then
      { st with animationProgress := progress1,
                animationTimer := some (1000 / animationSpeed) }
    else
      { st with isAnimating := false,
                animationProgress := -1,
                animateBtnVisible := true,
                cancelBtnVisible := false,
                controlsDisabled := false }

/-- The animate-button click handler: if an animation is already
running it returns immediately, changing nothing; otherwise it
regenerates the full point sequences for the captured parameters, marks
the animation running with progress 0, swaps the buttons, disables the
parameter controls, and kicks off the first `animateSegment` tick. -/
noncomputable def animateBtnClick (st : AnimUIState) (iterations : ℕ)
    (angleDeg twistDeg extrude : ℝ) (use3D : Bool)
    (animationSpeed : ℕ) : AnimUIState :=
  if st.isAnimating then st
  else
    let finalString := generateLSystem iterations
    let st1 : AnimUIState :=
      { st with currentPoints2D := get2DPoints finalString angleDeg,
                currentPoints3D :=
                  get3DPoints finalString angleDeg twistDeg extrude,
                isAnimating := true,
                animationProgress := 0,
                animateBtnVisible := false,
                cancelBtnVisible := true,
                controlsDisabled := true }
    animateSegmentStep use3D animationSpeed st1

/-- C8: a start-animation request while an animation is already running
leaves the whole state — running flag, progress counter, pending timer,
point caches, control enablement — unchanged. -/
theorem animateBtnClick_noop_when_animating (st : AnimUIState)
    (iterations : ℕ) (angleDeg twistDeg extrude : ℝ) (use3D : Bool)
    (animationSpeed : ℕ) (h : st.isAnimating = true) :
    animateBtnClick st iterations angleDeg twistDeg extrude use3D
      animationSpeed = st := by
  unfold animateBtnClick
  rw [if_pos h]

/-- Witness for the C8 theorem: a concrete running state is returned
unchanged by a second start request. -/
theorem animateBtnClick_noop_when_animating_witness :
    animateBtnClick
      ⟨['F'], [(0, 0)], [(0, 0, 0)], true, 3, some 16, true, false, true⟩
      4 90 0 0 false 60 =
    ⟨['F'], [(0, 0)], [(0, 0, 0)], true, 3, some 16, true, false, true⟩ :=
  animateBtnClick_noop_when_animating
    ⟨['F'], [(0, 0)], [(0, 0, 0)], true, 3, some 16, true, false, true⟩
    4 90 0 0 false 60 rfl

/-- The hexadecimal digit character for a value below 16, as produced
by the JavaScript `Number.prototype.toString(16)`: digits `0`-`9` then
lowercase `a`-`f`. -/
def hexCharOfDigit (d : ℕ) : Char :=
  if d < 10 then Char.ofNat (48 + d) else Char.ofNat (87 + d)

/-- The base-16 digit string of a natural number, most significant
digit first, as `Number.prototype.toString(16)` renders a non-negative
integer. -/
def natToHex (n : ℕ) : List Char :=
  if _h : n < 16 then [hexCharOfDigit n]
  else natToHex (n / 16) ++ [hexCharOfDigit (n % 16)]
termination_by n
decreasing_by omega

/-- The inner `toHex` of `rgbToHex`: render the channel in base 16 and
left-pad a single digit with `0`. -/
def toHexPadded (c : ℕ) : List Char :=
  let hex := natToHex c
  if hex.length = 1 then '0' :: hex else hex

/-- Embedding of `rgbToHex`: a `#` followed by the three two-digit hex
channels. -/
def rgbToHex (r g b : ℕ) : List Char :=
  '#' :: (toHexPadded r ++ toHexPadded g ++ toHexPadded b)

/-- The numeric value of a hexadecimal digit character as `parseInt`
with radix 16 reads it (digits, lowercase and uppercase letters). -/
def hexDigitVal (c : Char) : ℕ :=
  if '0' ≤ c ∧ c ≤ '9' then c.toNat - 48
  else if 'a' ≤ c ∧ c ≤ 'f' then c.toNat - 87
  else if 'A' ≤ c ∧ c ≤ 'F' then c.toNat - 55
  else 0

/-- Whether `parseInt` with radix 16 accepts the character as a digit. -/
def isHexDigitChar (c : Char) : Bool :=
  decide (('0' ≤ c ∧ c ≤ '9') ∨ ('a' ≤ c ∧ c ≤ 'f') ∨ ('A' ≤ c ∧ c ≤ 'F'))

/-- Embedding of `parseInt(h, 16)` on a non-negative hex string: read
the leading run of hex digits and accumulate their value. -/
def parseHex (l : List Char) : ℕ :=
  (l.takeWhile isHexDigitChar).foldl (fun acc c => 16 * acc + hexDigitVal c) 0

/-- The `hex.replace('#', '')` call: drop the first `#` character. -/
def removeFirstHash : List Char → List Char
  | [] => []
  | c :: cs => if c = '#' then cs else c :: removeFirstHash cs

/-- Embedding of `hexToRgb`: strip the `#`, parse the remainder in base
16, and split the 24-bit value into channels.  The bit operations
`(bigint >> 16) & 255`, `(bigint >> 8) & 255` and `bigint & 255` on a
non-negative value below 2^31 are division by 2^16 or 2^8 followed by
remainder modulo 256. -/
def hexToRgb (hex : List Char) : ℕ × ℕ × ℕ :=
  let h := removeFirstHash hex
  let bigint := parseHex h
  (bigint / 65536 % 256, bigint / 256 % 256, bigint % 256)

theorem hexDigitVal_hexCharOfDigit : ∀ d < 16,
    hexDigitVal (hexCharOfDigit d) = d := by decide

theorem isHexDigitChar_hexCharOfDigit : ∀ d < 16,
    isHexDigitChar (hexCharOfDigit d) = true := by decide

theorem natToHex_lt (n : ℕ) (h : n < 16) :
    natToHex n = [hexCharOfDigit n] := by
  unfold natToHex
  rw [dif_pos h]

theorem natToHex_ge (n : ℕ) (h : ¬ n < 16) :
    natToHex n = natToHex (n / 16) ++ [hexCharOfDigit (n % 16)] := by
  conv_lhs => unfold natToHex
  rw [dif_neg h]

theorem toHexPadded_eq (c : ℕ) (hc : c ≤ 255) :
    toHexPadded c = [hexCharOfDigit (c / 16), hexCharOfDigit (c % 16)] := by
  by_cases h : c < 16
  · rw [toHexPadded, natToHex_lt c h]
    simp only [List.length_singleton, if_pos rfl]
    rw [Nat.div_eq_of_lt h, Nat.mod_eq_of_lt h]
    rfl
  · have hdiv : c / 16 < 16 := by omega
    rw [toHexPadded, natToHex_ge c h, natToHex_lt _ hdiv]
    simp

theorem parseHex_six (d1 d2 d3 d4 d5 d6 : ℕ) (h1 : d1 < 16)
    (h2 : d2 < 16) (h3 : d3 < 16) (h4 : d4 < 16) (h5 : d5 < 16)
    (h6 : d6 < 16) :
    parseHex [hexCharOfDigit d1, hexCharOfDigit d2, hexCharOfDigit d3,
      hexCharOfDigit d4, hexCharOfDigit d5, hexCharOfDigit d6] =
    ((((d1 * 16 + d2) * 16 + d3) * 16 + d4) * 16 + d5) * 16 + d6 := by
  simp [parseHex, List.takeWhile_cons,
    isHexDigitChar_hexCharOfDigit d1 h1,
    isHexDigitChar_hexCharOfDigit d2 h2,
    isHexDigitChar_hexCharOfDigit d3 h3,
    isHexDigitChar_hexCharOfDigit d4 h4,
    isHexDigitChar_hexCharOfDigit d5 h5,
    isHexDigitChar_hexCharOfDigit d6 h6,
    hexDigitVal_hexCharOfDigit d1 h1,
    hexDigitVal_hexCharOfDigit d2 h2,
    hexDigitVal_hexCharOfDigit d3 h3,
    hexDigitVal_hexCharOfDigit d4 h4,
    hexDigitVal_hexCharOfDigit d5 h5,
    hexDigitVal_hexCharOfDigit d6 h6]
  ring

/-- C9: converting an RGB triple with all channels in [0, 255] to a hex
colour string and parsing it back returns the original triple. -/
theorem hexToRgb_rgbToHex_roundtrip (r g b : ℕ) (hr : r ≤ 255)
    (hg : g ≤ 255) (hb : b ≤ 255) :
    hexToRgb (rgbToHex r g b) = (r, g, b) := by
  rw [rgbToHex, toHexPadded_eq r hr, toHexPadded_eq g hg,
    toHexPadded_eq b hb, hexToRgb]
  have hhash : removeFirstHash ('#' :: ([hexCharOfDigit (r / 16),
      hexCharOfDigit (r % 16)] ++ [hexCharOfDigit (g / 16),
      hexCharOfDigit (g % 16)] ++ [hexCharOfDigit (b / 16),
      hexCharOfDigit (b % 16)])) = [hexCharOfDigit (r / 16),
      hexCharOfDigit (r % 16), hexCharOfDigit (g / 16),
      hexCharOfDigit (g % 16), hexCharOfDigit (b / 16),
      hexCharOfDigit (b % 16)] := by
    simp [removeFirstHash]
  rw [hhash, parseHex_six _ _ _ _ _ _ (by omega) (by omega) (by omega)
    (by omega) (by omega) (by omega)]
  simp only [Prod.mk.injEq]
  refine ⟨by omega, by omega, by omega⟩

/-- Witness for the C9 theorem at the concrete triple (255, 0, 17),
whose hex form is `#ff0011`. -/
theorem hexToRgb_rgbToHex_roundtrip_witness :
    hexToRgb (rgbToHex 255 0 17) = (255, 0, 17) :=
  hexToRgb_rgbToHex_roundtrip 255 0 17 (by decide) (by decide) (by decide)

end DragonCurve
